import Mathlib

/-!
Shallow embedding of `thorlabs_KPRM1E.py` (class `Controller`).

The device is modelled by an oracle `env : ℕ → List ℕ` giving the bytes the
serial port delivers for the n-th transport read of a run; writes consume no
index.  Every operation returns an `Out CState`: `ok` with the next read
index and the trace of transport events, `fail` for a raised assertion
(Python `assert` / `IndexError`), and `hang` when the fuel bounding the
unbounded settle-poll loops runs out (the real loops have no cap).
-/

namespace KPRM1E

/-! Calibration constants and tolerances (`Controller.__init__`). -/

def EncCnt_per_deg : ℚ := 19196418578623391 / 10000000000000

def EncCnt_per_deg_per_s : ℚ := 4294166 / 100

def EncCnt_per_deg_per_s2 : ℚ := 1466 / 100

def move_tol_deg : ℚ := 1 / 100

/-- Python `round(q)`: nearest integer, ties to the even integer. -/
def pyRound (q : ℚ) : ℤ :=
  if q - (⌊q⌋ : ℚ) < 1 / 2 then ⌊q⌋
  else if 1 / 2 < q - (⌊q⌋ : ℚ) then ⌊q⌋ + 1
  else if ⌊q⌋ % 2 = 0 then ⌊q⌋ else ⌊q⌋ + 1

/-- Python `round(q, 1)`. -/
def round_py1 (q : ℚ) : ℚ := (pyRound (q * 10) : ℚ) / 10

/-- Python `round(q, 2)`. -/
def round_py2 (q : ℚ) : ℚ := (pyRound (q * 100) : ℚ) / 100

/-- Python `int.from_bytes(bs, byteorder='little')` (default: unsigned). -/
def fromBytesLE : List ℕ → ℕ
  | [] => 0
  | b :: t => b + 256 * fromBytesLE t

/-- Little-endian byte expansion of a natural number into `k` bytes. -/
def toBytesLE : ℕ → ℕ → List ℕ
  | 0, _ => []
  | k + 1, n => n % 256 :: toBytesLE k (n / 256)

/-- Python `n.to_bytes(4, byteorder='little', signed=True)`:
two's-complement 32-bit little-endian encoding. -/
def int32ToBytesLE (n : ℤ) : List ℕ := toBytesLE 4 (n % 2 ^ 32).toNat

/-- Follows the spec's words (not the source): a signed 32-bit little-endian
decode, for comparison with the source's unsigned `fromBytesLE` decode. -/
def specSigned32LE (bs : List ℕ) : ℤ :=
  if fromBytesLE bs < 2 ^ 31 then (fromBytesLE bs : ℤ)
  else (fromBytesLE bs : ℤ) - 2 ^ 32

/-! Transport events and operation outcomes. -/

/-- One transport interaction: a frame written, or a read of n bytes. -/
inductive Event where
  | write (frame : List ℕ)
  | read (nbytes : ℕ)
  deriving DecidableEq

/-- Mutable attributes of the `Controller` instance. -/
structure CState where
  model_number : List ℕ
  type : ℕ
  serial_number : ℕ
  firmware_v : ℕ
  hardware_v : ℕ
  enable : Bool
  homed : Bool
  max_velocity : ℚ
  acceleration : ℚ
  ch_id_bytes : List ℕ
  position_counts : ℕ
  position_deg : ℚ
  moving : Bool
  target_position_deg : ℚ
  deriving DecidableEq

/-- Outcome of an operation: success with next read index and event trace,
an assertion failure with the trace up to the failure, or loop fuel
exhaustion (the real settle-poll loops are unbounded). -/
inductive Out (α : Type) where
  | ok (a : α) (n : ℕ) (t : List Event)
  | fail (t : List Event)
  | hang
  deriving DecidableEq

def Out.isOk {α : Type} : Out α → Bool
  | .ok _ _ _ => true
  | _ => false

/-- The transport events an outcome carries (none on fuel exhaustion). -/
def Out.trace {α : Type} : Out α → List Event
  | .ok _ _ t => t
  | .fail t => t
  | .hang => []

/-- Sequencing with trace accumulation. -/
def Out.andThen {α β : Type} : Out α → (α → ℕ → Out β) → Out β
  | .ok a n t, f =>
      match f a n with
      | .ok b n2 t2 => .ok b n2 (t ++ t2)
      | .fail t2 => .fail (t ++ t2)
      | .hang => .hang
  | .fail t, _ => .fail t
  | .hang, _ => .hang

/-! Command frames (byte literals from the source). -/

def get_info_cmd : List ℕ := [0x05, 0x00, 0x00, 0x00, 0x50, 0x01]

def get_enable_cmd : List ℕ := [0x11, 0x02, 0x00, 0x00, 0x50, 0x01]

def set_enable_true_cmd : List ℕ := [0x10, 0x02, 0x00, 0x01, 0x50, 0x01]

def set_enable_false_cmd : List ℕ := [0x10, 0x02, 0x00, 0x02, 0x50, 0x01]

def get_status_cmd : List ℕ := [0x29, 0x04, 0x00, 0x00, 0x50, 0x01]

def home_cmd : List ℕ := [0x43, 0x04, 0x00, 0x00, 0x50, 0x01]

def get_velocity_cmd : List ℕ := [0x14, 0x04, 0x00, 0x00, 0x50, 0x01]

def identify_cmd : List ℕ := [0x23, 0x02, 0x00, 0x00, 0x50, 0x01]

def get_position_cmd : List ℕ := [0x11, 0x04, 0x00, 0x00, 0x50, 0x01]

/-- `bytes([b'\x50'[0] | b'\x80'[0]])`: generic bus address with the
payload bit set. -/
def destination_byte : ℕ := Nat.lor 0x50 0x80

/-- MGMSG_MOT_MOVE_ABSOLUTE frame
(`b'\x53\x04\x06\x00' + d + b'\x01' + ch_id_bytes + p`). -/
def move_abs_cmd (ch : List ℕ) (counts : ℤ) : List ℕ :=
  [0x53, 0x04, 0x06, 0x00] ++ [destination_byte] ++ [0x01] ++ ch ++ int32ToBytesLE counts

/-- MGMSG_MOT_SET_VELPARAMS frame
(`b'\x13\x04\x0E\x00' + d + b'\x01' + ch_id_bytes + m + a + v`). -/
def set_velocity_cmd (ch m a v : List ℕ) : List ℕ :=
  [0x13, 0x04, 0x0E, 0x00] ++ [destination_byte] ++ [0x01] ++ ch ++ m ++ a ++ v

/-! The `_send` primitive over an explicit input buffer (`Controller._send`):
write the command, read `response_bytes` bytes when requested, then
`assert self.port.inWaiting() == 0`.  `none` is the raised assertion. -/

def send (cmd : List ℕ) (response_bytes : Option ℕ) (buffer : List ℕ) :
    Option (Option (List ℕ) × List Event) :=
  match response_bytes with
  | some k =>
      let response := buffer.take k
      if buffer.drop k = [] then some (some response, [Event.write cmd, Event.read k])
      else none
  | none =>
      if buffer = [] then some (none, [Event.write cmd])
      else none

/-! Operations (`Controller` methods), oracle-and-index style. -/

/-- Attribute updates of `get_position_deg` from a position response:
`ch_id_bytes = response[6:8]`, `position_counts = int.from_bytes(response[8:12],
'little')`, `position_deg = position_counts / EncCnt_per_deg`. -/
def apply_position (s : CState) (response : List ℕ) : CState :=
  let counts := fromBytesLE ((response.drop 8).take 4)
  { s with ch_id_bytes := (response.drop 6).take 2,
           position_counts := counts,
           position_deg := (counts : ℚ) / EncCnt_per_deg }

/-- `Controller.get_position_deg`: one request/response exchange reading 12
bytes; longer device output trips the `inWaiting` assertion. -/
def get_position_deg (env : ℕ → List ℕ) (n : ℕ) (s : CState) : Out CState :=
  if 12 < (env n).length then Out.fail [Event.write get_position_cmd, Event.read 12]
  else Out.ok (apply_position s ((env n).take 12)) (n + 1)
    [Event.write get_position_cmd, Event.read 12]

/-- Position in degrees that a poll reading response `c` would record. -/
def posOf (c : List ℕ) : ℚ :=
  (fromBytesLE (((c.take 12).drop 8).take 4) : ℚ) / EncCnt_per_deg

/-- The settle condition of `Controller._finish_move`:
`target - tol <= self.position_deg <= target + tol`. -/
def move_check (target p : ℚ) : Bool :=
  decide (target - move_tol_deg ≤ p ∧ p ≤ target + move_tol_deg)

/-- The settle condition of `Controller._home`:
`round(self.position_deg, 2) == 0`. -/
def home_check (p : ℚ) : Bool := decide (round_py2 p = 0)

/-- The shared `while True:` settle-poll loop of `_finish_move` and `_home`:
re-query position until `check` holds.  `fuel` only bounds the model; the
source loop has no cap. -/
def poll_loop (env : ℕ → List ℕ) (check : ℚ → Bool) :
    ℕ → ℕ → CState → Out CState
  | 0, _, _ => Out.hang
  | fuel + 1, n, s =>
      match get_position_deg env n s with
      | Out.ok s1 n1 t1 =>
          if check s1.position_deg then Out.ok s1 n1 t1
          else
            match poll_loop env check fuel n1 s1 with
            | Out.ok s2 n2 t2 => Out.ok s2 n2 (t1 ++ t2)
            | Out.fail t2 => Out.fail (t1 ++ t2)
            | Out.hang => Out.hang
      | Out.fail t1 => Out.fail t1
      | Out.hang => Out.hang

/-- `Controller._finish_move`: immediate return when `_moving` is clear;
otherwise `port.read(20)` (ack bytes, discarded) and the settle-poll loop
against `_target_position_deg`, then clear `_moving`. -/
def finish_move (env : ℕ → List ℕ) (fuel n : ℕ) (s : CState) : Out CState :=
  if s.moving = false then Out.ok s n []
  else
    match poll_loop env (move_check s.target_position_deg) fuel (n + 1) s with
    | Out.ok s1 n1 t1 => Out.ok { s1 with moving := false } n1 (Event.read 20 :: t1)
    | Out.fail t1 => Out.fail (Event.read 20 :: t1)
    | Out.hang => Out.hang

/-- The body of `Controller.move_deg` after the pending-move finish: compute
the absolute target, `assert 0 <= move_deg <= 359.99`, send the
move-absolute frame, set `_moving`/`_target_position_deg`, and when `block`
run `_finish_move`. -/
def issue_move (env : ℕ → List ℕ) (fuel n1 : ℕ) (s1 : CState)
    (amount : ℚ) (relative block : Bool) : Out CState :=
  let target := if relative then s1.position_deg + amount else amount
  if 0 ≤ target ∧ target ≤ 359.99 then
    let counts := pyRound (target * EncCnt_per_deg)
    let cmd := move_abs_cmd s1.ch_id_bytes counts
    let s2 := { s1 with moving := true, target_position_deg := target }
    if block then
      match finish_move env fuel n1 s2 with
      | Out.ok s3 n3 t3 => Out.ok s3 n3 (Event.write cmd :: t3)
      | Out.fail t3 => Out.fail (Event.write cmd :: t3)
      | Out.hang => Out.hang
    else Out.ok s2 n1 [Event.write cmd]
  else Out.fail []

/-- `Controller.move_deg(move_deg, relative, block)`:
`if self._moving: self._finish_move()`, then the move body. -/
def move_deg (env : ℕ → List ℕ) (fuel n : ℕ) (s : CState)
    (amount : ℚ) (relative block : Bool) : Out CState :=
  Out.andThen (if s.moving then finish_move env fuel n s else Out.ok s n [])
    fun s1 n1 => issue_move env fuel n1 s1 amount relative block

/-- `Controller._get_velocity_parameters`: read 20 bytes, decode
`response[16:20]` and `response[12:16]` (little-endian, unsigned) and scale. -/
def get_velocity_parameters (env : ℕ → List ℕ) (n : ℕ) (s : CState) : Out CState :=
  if 20 < (env n).length then Out.fail [Event.write get_velocity_cmd, Event.read 20]
  else
    let response := (env n).take 20
    Out.ok { s with
        max_velocity :=
          (fromBytesLE ((response.drop 16).take 4) : ℚ) / EncCnt_per_deg_per_s,
        acceleration :=
          (fromBytesLE ((response.drop 12).take 4) : ℚ) / EncCnt_per_deg_per_s2 }
      (n + 1) [Event.write get_velocity_cmd, Event.read 20]

/-- `Controller._set_velocity_parameters`: range asserts before any frame,
the set frame, a verification get, and the `round(.., 1)` equality asserts. -/
def set_velocity_parameters (env : ℕ → List ℕ) (n : ℕ) (s : CState)
    (max_velocity acceleration : ℚ) : Out CState :=
  if (0 ≤ max_velocity ∧ max_velocity ≤ 25) ∧ (0 ≤ acceleration ∧ acceleration ≤ 25) then
    let max_velocity_counts := pyRound (max_velocity * EncCnt_per_deg_per_s)
    let acceleration_counts := pyRound (acceleration * EncCnt_per_deg_per_s2)
    let m := int32ToBytesLE 0
    let v := int32ToBytesLE max_velocity_counts
    let a := int32ToBytesLE acceleration_counts
    let cmd := set_velocity_cmd s.ch_id_bytes m a v
    match get_velocity_parameters env n s with
    | Out.ok s1 n1 t1 =>
        if round_py1 s1.max_velocity = max_velocity ∧
            round_py1 s1.acceleration = acceleration then
          Out.ok s1 n1 (Event.write cmd :: t1)
        else Out.fail (Event.write cmd :: t1)
    | Out.fail t1 => Out.fail (Event.write cmd :: t1)
    | Out.hang => Out.hang
  else Out.fail []

/-- `Controller._get_info`: read 90 bytes and extract the identity fields. -/
def get_info (env : ℕ → List ℕ) (n : ℕ) (s : CState) : Out CState :=
  if 90 < (env n).length then Out.fail [Event.write get_info_cmd, Event.read 90]
  else
    let response := (env n).take 90
    Out.ok { s with
        model_number := (response.drop 10).take 8,
        type := fromBytesLE ((response.drop 18).take 2),
        serial_number := fromBytesLE ((response.drop 6).take 4),
        firmware_v := fromBytesLE ((response.drop 20).take 4),
        hardware_v := fromBytesLE ((response.drop 84).take 2) }
      (n + 1) [Event.write get_info_cmd, Event.read 90]

/-- `Controller._get_enable`: read 6 bytes; `response[3]` must be 1 or 2. -/
def get_enable (env : ℕ → List ℕ) (n : ℕ) (s : CState) : Out CState :=
  let ev := [Event.write get_enable_cmd, Event.read 6]
  if 6 < (env n).length then Out.fail ev
  else
    let response := (env n).take 6
    if h : 3 < response.length then
      let b := response.get ⟨3, h⟩
      if b = 1 then Out.ok { s with enable := true } (n + 1) ev
      else if b = 2 then Out.ok { s with enable := false } (n + 1) ev
      else Out.fail ev
    else Out.fail ev

/-- `Controller._set_enable`: the set frame, then a verification get whose
result must equal the requested state. -/
def set_enable (env : ℕ → List ℕ) (n : ℕ) (s : CState) (enable : Bool) : Out CState :=
  let cmd := if enable then set_enable_true_cmd else set_enable_false_cmd
  match get_enable env n s with
  | Out.ok s1 n1 t1 =>
      if s1.enable = enable then Out.ok s1 n1 (Event.write cmd :: t1)
      else Out.fail (Event.write cmd :: t1)
  | Out.fail t1 => Out.fail (Event.write cmd :: t1)
  | Out.hang => Out.hang

/-- `Controller._get_homed_status`: read 12 bytes; homed flag is bit 2 of
`status_bits[1]`, i.e. of byte 9 of the response. -/
def get_homed_status (env : ℕ → List ℕ) (n : ℕ) (s : CState) : Out CState :=
  let ev := [Event.write get_status_cmd, Event.read 12]
  if 12 < (env n).length then Out.fail ev
  else
    let status_bits := ((env n).take 12).drop 8
    if h : 1 < status_bits.length then
      Out.ok { s with homed := Nat.land (status_bits.get ⟨1, h⟩) 4 != 0 } (n + 1) ev
    else Out.fail ev

/-- `Controller._home`: the home frame with a 6-byte ack read, then the
settle-poll loop with the `round(position, 2) == 0` condition. -/
def home (env : ℕ → List ℕ) (fuel n : ℕ) (s : CState) : Out CState :=
  let ev := [Event.write home_cmd, Event.read 6]
  if 6 < (env n).length then Out.fail ev
  else
    match poll_loop env home_check fuel (n + 1) s with
    | Out.ok s1 n1 t1 => Out.ok s1 n1 (ev ++ t1)
    | Out.fail t1 => Out.fail (ev ++ t1)
    | Out.hang => Out.hang

/-- `Controller.identify`: fire-and-forget. -/
def identify (n : ℕ) (s : CState) : Out CState :=
  Out.ok s n [Event.write identify_cmd]

/-- A fresh instance before `__init__` runs (Python attributes unset;
zero values stand for "absent"). -/
def cstate0 : CState :=
  { model_number := [], type := 0, serial_number := 0, firmware_v := 0,
    hardware_v := 0, enable := false, homed := false, max_velocity := 0,
    acceleration := 0, ch_id_bytes := [], position_counts := 0,
    position_deg := 0, moving := false, target_position_deg := 0 }

/-- `'KDC101\x00\x00'` as bytes. -/
def expected_model : List ℕ := [0x4B, 0x44, 0x43, 0x31, 0x30, 0x31, 0x00, 0x00]

/-- `Controller.__init__` after the identity asserts succeed: enable (set
and verify), homed query, home when not homed, baseline position query,
default velocity profile, `_moving = False`. -/
def init_after_identity (env : ℕ → List ℕ) (fuel n : ℕ) (s : CState) : Out CState :=
  Out.andThen (set_enable env n s true) fun s2 n2 =>
  Out.andThen (get_homed_status env n2 s2) fun s3 n3 =>
  Out.andThen (if s3.homed then Out.ok s3 n3 [] else home env fuel n3 s3) fun s4 n4 =>
  Out.andThen (get_position_deg env n4 s4) fun s5 n5 =>
  Out.andThen (set_velocity_parameters env n5 s5 25 25) fun s6 n6 =>
  Out.ok { s6 with moving := false } n6 []

/-- `Controller.__init__` from the identity exchange on: get info, assert
the expected model and firmware, then the rest of the connect sequence. -/
def controller_init (env : ℕ → List ℕ) (fuel : ℕ) : Out CState :=
  Out.andThen (get_info env 0 cstate0) fun s1 n1 =>
    if s1.model_number = expected_model ∧ s1.firmware_v = 131592 then
      init_after_identity env fuel n1 s1
    else Out.fail []

/-! Concrete fixtures used by witnesses and counterexamples. -/

/-- A silent device: every read returns `b''` (a Python slice of an empty
bytes object is empty, and `int.from_bytes(b'', 'little') = 0`). -/
def env0 : ℕ → List ℕ := fun _ => []

/-- A session with a non-blocking move outstanding towards 0 degrees. -/
def sW : CState := { cstate0 with moving := true }

/-- `sW` after its pending move has settled. -/
def sWdone : CState := { sW with moving := false }

/-- A position response reporting 1024 counts (about 0.53 degrees). -/
def badResp : List ℕ := [0, 0, 0, 0, 0, 0, 0, 0, 0, 4, 0, 0]

/-- A device stuck reporting 1024 counts forever. -/
def envBad : ℕ → List ℕ := fun _ => badResp

/-- A velocity-parameters response echoing the counts that
`_set_velocity_parameters(25, 25)` transmits (366 and 1073542). -/
def echoResp : List ℕ :=
  List.replicate 12 0 ++ int32ToBytesLE 366 ++ int32ToBytesLE 1073542

/-- A position response whose counts bytes are `FF FF FF FF`. -/
def respFF : List ℕ := [0, 0, 0, 0, 0, 0, 1, 0, 255, 255, 255, 255]

/-! Helper lemmas. -/

theorem pyRound_sub_abs_le (q : ℚ) : |(pyRound q : ℚ) - q| ≤ 1 / 2 := by
  unfold pyRound
  have h0 : (⌊q⌋ : ℚ) ≤ q := Int.floor_le q
  have h1 : q < (⌊q⌋ : ℚ) + 1 := Int.lt_floor_add_one q
  by_cases hlt : q - (⌊q⌋ : ℚ) < 1 / 2
  · simp only [hlt, if_true]
    rw [abs_le]
    constructor <;> linarith
  · simp only [hlt, if_false]
    by_cases hgt : 1 / 2 < q - (⌊q⌋ : ℚ)
    · simp only [hgt, if_true]
      push_cast
      rw [abs_le]
      constructor <;> linarith
    · simp only [hgt, if_false]
      by_cases hev : ⌊q⌋ % 2 = 0
      · simp only [hev, if_true]
        rw [abs_le]
        constructor <;> linarith
      · simp only [hev, if_false]
        push_cast
        rw [abs_le]
        constructor <;> linarith

theorem toBytesLE_length (k n : ℕ) : (toBytesLE k n).length = k := by
  induction k generalizing n with
  | zero => rfl
  | succ k ih => simp [toBytesLE, ih]

theorem fromBytesLE_toBytesLE_four (n : ℕ) :
    fromBytesLE (toBytesLE 4 n) = n % 2 ^ 32 := by
  simp [toBytesLE, fromBytesLE]
  omega

theorem fromBytesLE_lt (bs : List ℕ) (h : ∀ b ∈ bs, b < 256) :
    fromBytesLE bs < 2 ^ (8 * bs.length) := by
  induction bs with
  | nil => simp [fromBytesLE]
  | cons a t ih =>
      have ha : a < 256 := h a (by simp)
      have ht : fromBytesLE t < 2 ^ (8 * t.length) := ih fun b hb => h b (by simp [hb])
      have he : fromBytesLE (a :: t) = a + 256 * fromBytesLE t := rfl
      have hp : 2 ^ (8 * (a :: t).length) = 256 * 2 ^ (8 * t.length) := by
        rw [List.length_cons, Nat.mul_add, Nat.pow_add]
        ring
      rw [he, hp]
      omega

theorem specSigned32LE_int32ToBytesLE (n : ℤ) (h0 : -(2 ^ 31) ≤ n) (h1 : n < 2 ^ 31) :
    specSigned32LE (int32ToBytesLE n) = n := by
  unfold specSigned32LE int32ToBytesLE
  rw [fromBytesLE_toBytesLE_four]
  have h2 : (0 : ℤ) ≤ n % 2 ^ 32 := Int.emod_nonneg n (by norm_num)
  have h3 : n % 2 ^ 32 < 2 ^ 32 := Int.emod_lt_of_pos n (by norm_num)
  have h5 : (n % 2 ^ 32).toNat % 2 ^ 32 = (n % 2 ^ 32).toNat :=
    Nat.mod_eq_of_lt (by omega)
  rw [h5]
  split_ifs <;> omega

theorem apply_position_moving (s : CState) (c : List ℕ) :
    (apply_position s c).moving = s.moving := rfl

theorem apply_position_target (s : CState) (c : List ℕ) :
    (apply_position s c).target_position_deg = s.target_position_deg := rfl

theorem get_position_deg_ok (env : ℕ → List ℕ) (n : ℕ) (s s' : CState) (n' : ℕ)
    (t : List Event) (h : get_position_deg env n s = Out.ok s' n' t) :
    s' = apply_position s ((env n).take 12) ∧ n' = n + 1 ∧
    t = [Event.write get_position_cmd, Event.read 12] := by
  unfold get_position_deg at h
  by_cases hl : 12 < (env n).length
  · simp [hl] at h
  · simp [hl] at h
    exact ⟨h.1.symm, h.2.1.symm, h.2.2.symm⟩

theorem poll_loop_ok (env : ℕ → List ℕ) (check : ℚ → Bool) :
    ∀ fuel n s s' n' t, poll_loop env check fuel n s = Out.ok s' n' t →
      check s'.position_deg = true ∧ s'.moving = s.moving ∧
      s'.target_position_deg = s.target_position_deg ∧
      ∀ f, Event.write f ∈ t → f = get_position_cmd := by
  intro fuel
  induction fuel with
  | zero =>
      intro n s s' n' t h
      simp [poll_loop] at h
  | succ fuel ih =>
      intro n s s' n' t h
      rw [poll_loop] at h
      cases hg : get_position_deg env n s with
      | ok s1 n1 t1 =>
          rw [hg] at h
          dsimp only at h
          obtain ⟨hs1, hn1, ht1⟩ := get_position_deg_ok env n s s1 n1 t1 hg
          cases hc : check s1.position_deg with
          | true =>
              rw [if_pos hc] at h
              obtain ⟨h1, h2, h3⟩ := Out.ok.inj h
              subst h1; subst h2; subst h3
              refine ⟨hc, ?_, ?_, ?_⟩
              · rw [hs1, apply_position_moving]
              · rw [hs1, apply_position_target]
              · intro f hf
                rw [ht1] at hf
                simp at hf
                exact hf
          | false =>
              rw [if_neg (by simp [hc])] at h
              cases hrec : poll_loop env check fuel n1 s1 with
              | ok s2 n2 t2 =>
                  rw [hrec] at h
                  obtain ⟨h1, h2, h3⟩ := Out.ok.inj h
                  subst h1; subst h2; subst h3
                  obtain ⟨c1, c2, c3, c4⟩ := ih n1 s1 s2 n2 t2 hrec
                  refine ⟨c1, ?_, ?_, ?_⟩
                  · rw [c2, hs1, apply_position_moving]
                  · rw [c3, hs1, apply_position_target]
                  · intro f hf
                    rw [ht1] at hf
                    rcases List.mem_append.1 hf with hf1 | hf2
                    · simp at hf1
                      exact hf1
                    · exact c4 f hf2
              | fail t2 =>
                  rw [hrec] at h
                  exact absurd h (by simp)
              | hang =>
                  rw [hrec] at h
                  exact absurd h (by simp)
      | fail t1 =>
          rw [hg] at h
          exact absurd h (by simp)
      | hang =>
          rw [hg] at h
          exact absurd h (by simp)

theorem poll_loop_hang (env : ℕ → List ℕ) (check : ℚ → Bool)
    (hlen : ∀ k, ¬ 12 < (env k).length) (hchk : ∀ k, check (posOf (env k)) = false) :
    ∀ fuel n s, poll_loop env check fuel n s = Out.hang := by
  intro fuel
  induction fuel with
  | zero => intro n s; rfl
  | succ fuel ih =>
      intro n s
      rw [poll_loop]
      have hpos : (apply_position s ((env n).take 12)).position_deg = posOf (env n) := rfl
      simp only [get_position_deg, hlen n, if_false, hpos, hchk n,
        Bool.false_eq_true, ih]

theorem Out.isOk_iff {α : Type} (o : Out α) :
    o.isOk = true ↔ ∃ a n t, o = Out.ok a n t := by
  cases o <;> simp [Out.isOk]

theorem Out.andThen_ok {α β : Type} (o : Out α) (f : α → ℕ → Out β) (b : β)
    (n2 : ℕ) (T : List Event) (h : Out.andThen o f = Out.ok b n2 T) :
    ∃ a n1 t1 t2, o = Out.ok a n1 t1 ∧ f a n1 = Out.ok b n2 t2 ∧ T = t1 ++ t2 := by
  cases o with
  | ok a n1 t1 =>
      dsimp [Out.andThen] at h
      cases hf : f a n1 with
      | ok b2 n3 t2 =>
          rw [hf] at h
          obtain ⟨h1, h2, h3⟩ := Out.ok.inj h
          exact ⟨a, n1, t1, t2, rfl, by rw [hf, h1, h2], h3.symm⟩
      | fail t2 =>
          rw [hf] at h
          exact absurd h (by simp)
      | hang =>
          rw [hf] at h
          exact absurd h (by simp)
  | fail t => simp [Out.andThen] at h
  | hang => simp [Out.andThen] at h

theorem Out.andThen_fail {α β : Type} (o : Out α) (f : α → ℕ → Out β)
    (T : List Event) (h : Out.andThen o f = Out.fail T) :
    o = Out.fail T ∨
    ∃ a n1 t1 t2, o = Out.ok a n1 t1 ∧ f a n1 = Out.fail t2 ∧ T = t1 ++ t2 := by
  cases o with
  | ok a n1 t1 =>
      dsimp [Out.andThen] at h
      cases hf : f a n1 with
      | ok b2 n3 t2 =>
          rw [hf] at h
          exact absurd h (by simp)
      | fail t2 =>
          rw [hf] at h
          obtain h3 := Out.fail.inj h
          exact Or.inr ⟨a, n1, t1, t2, rfl, hf, h3.symm⟩
      | hang =>
          rw [hf] at h
          exact absurd h (by simp)
  | fail t =>
      simp [Out.andThen] at h
      exact Or.inl (by rw [h])
  | hang => simp [Out.andThen] at h

theorem finish_move_ok (env : ℕ → List ℕ) (fuel n : ℕ) (s s' : CState) (n' : ℕ)
    (t : List Event) (hm : s.moving = true)
    (h : finish_move env fuel n s = Out.ok s' n' t) :
    s.target_position_deg - move_tol_deg ≤ s'.position_deg ∧
    s'.position_deg ≤ s.target_position_deg + move_tol_deg ∧
    s'.moving = false ∧ s'.target_position_deg = s.target_position_deg ∧
    ∀ f, Event.write f ∈ t → f = get_position_cmd := by
  unfold finish_move at h
  rw [hm] at h
  simp only [Bool.true_eq_false, if_false] at h
  cases hp : poll_loop env (move_check s.target_position_deg) fuel (n + 1) s with
  | ok s1 n1 t1 =>
      rw [hp] at h
      obtain ⟨h1, h2, h3⟩ := Out.ok.inj h
      subst h1; subst h2; subst h3
      obtain ⟨c1, c2, c3, c4⟩ := poll_loop_ok env _ fuel (n + 1) s s1 n1 t1 hp
      have hc : s.target_position_deg - move_tol_deg ≤ s1.position_deg ∧
          s1.position_deg ≤ s.target_position_deg + move_tol_deg :=
        of_decide_eq_true c1
      refine ⟨hc.1, hc.2, rfl, c3, ?_⟩
      intro f hf
      rcases List.mem_cons.1 hf with hf1 | hf2
      · exact absurd hf1 (by simp)
      · exact c4 f hf2
  | fail t1 =>
      rw [hp] at h
      exact absurd h (by simp)
  | hang =>
      rw [hp] at h
      exact absurd h (by simp)

theorem issue_move_ok_trace (env : ℕ → List ℕ) (fuel n1 : ℕ) (s1 : CState)
    (amount : ℚ) (relative block : Bool) (s2 : CState) (n2 : ℕ) (t2 : List Event)
    (h : issue_move env fuel n1 s1 amount relative block = Out.ok s2 n2 t2) :
    ∃ t3, t2 = Event.write (move_abs_cmd s1.ch_id_bytes
      (pyRound ((if relative then s1.position_deg + amount else amount) *
        EncCnt_per_deg))) :: t3 := by
  simp only [issue_move] at h
  by_cases hr : 0 ≤ (if relative then s1.position_deg + amount else amount) ∧
      (if relative then s1.position_deg + amount else amount) ≤ 359.99
  · rw [if_pos hr] at h
    cases block with
    | true =>
        rw [if_pos rfl] at h
        split at h
        next s3 n3 t3 heq =>
          obtain ⟨h1, h2, h3⟩ := Out.ok.inj h
          exact ⟨t3, h3.symm⟩
        next t3 heq => exact absurd h (by simp)
        next heq => exact absurd h (by simp)
    | false =>
        rw [if_neg (by simp)] at h
        obtain ⟨h1, h2, h3⟩ := Out.ok.inj h
        exact ⟨[], h3.symm⟩
  · rw [if_neg hr] at h
    exact absurd h (by simp)

theorem issue_move_out_of_range (env : ℕ → List ℕ) (fuel n1 : ℕ) (s1 : CState)
    (amount : ℚ) (relative block : Bool)
    (hr : ¬(0 ≤ (if relative then s1.position_deg + amount else amount) ∧
        (if relative then s1.position_deg + amount else amount) ≤ 359.99)) :
    issue_move env fuel n1 s1 amount relative block = Out.fail [] := by
  simp only [issue_move]
  rw [if_neg hr]

/-! Claim theorems. -/

/-- C9: calling `_finish_move` when no move is outstanding (`_moving` is
false) is a no-op: it returns at once, consumes no transport read, writes
nothing (empty event trace), and leaves the session state unchanged. -/
theorem claim9_finish_move_noop (env : ℕ → List ℕ) (fuel n : ℕ) (s : CState)
    (h : s.moving = false) : finish_move env fuel n s = Out.ok s n [] := by
  unfold finish_move
  rw [h]
  simp

theorem claim9_witness : finish_move env0 1 0 cstate0 = Out.ok cstate0 0 [] :=
  claim9_finish_move_noop env0 1 0 cstate0 rfl

/-- C2: when the settle-poll loop of `_finish_move` terminates normally, the
last queried position lies within the fixed 0.01-degree tolerance of the
stored target and the moving flag is cleared; and the loop has no iteration
cap or timeout: while every poll stays out of tolerance it never returns,
whatever the fuel. -/
theorem claim2_settle_poll_postcondition :
    (∀ (env : ℕ → List ℕ) (fuel n : ℕ) (s s' : CState) (n' : ℕ) (t : List Event),
        s.moving = true → finish_move env fuel n s = Out.ok s' n' t →
        s.target_position_deg - move_tol_deg ≤ s'.position_deg ∧
        s'.position_deg ≤ s.target_position_deg + move_tol_deg ∧
        s'.moving = false) ∧
    (∀ (env : ℕ → List ℕ) (fuel n : ℕ) (s : CState),
        s.moving = true → (∀ k, ¬ 12 < (env k).length) →
        (∀ k, move_check s.target_position_deg (posOf (env k)) = false) →
        finish_move env fuel n s = Out.hang) := by
  constructor
  · intro env fuel n s s' n' t hm h
    obtain ⟨c1, c2, c3, c4, c5⟩ := finish_move_ok env fuel n s s' n' t hm h
    exact ⟨c1, c2, c3⟩
  · intro env fuel n s hm hlen hchk
    unfold finish_move
    rw [hm]
    simp only [Bool.true_eq_false, if_false,
      poll_loop_hang env _ hlen hchk fuel (n + 1) s]

theorem claim2_witness :
    (sW.target_position_deg - move_tol_deg ≤ sWdone.position_deg ∧
     sWdone.position_deg ≤ sW.target_position_deg + move_tol_deg ∧
     sWdone.moving = false) ∧
    finish_move envBad 3 0 sW = Out.hang :=
  ⟨claim2_settle_poll_postcondition.1 env0 1 0 sW sWdone 2
      [Event.read 20, Event.write get_position_cmd, Event.read 12] rfl
      (by with_unfolding_all decide),
   claim2_settle_poll_postcondition.2 envBad 3 0 sW rfl
      (fun k => by
        show ¬ 12 < badResp.length
        with_unfolding_all decide)
      (fun k => by
        show move_check sW.target_position_deg (posOf badResp) = false
        with_unfolding_all decide)⟩

theorem poll_loop_fail_writes (env : ℕ → List ℕ) (check : ℚ → Bool) :
    ∀ fuel n s t, poll_loop env check fuel n s = Out.fail t →
      ∀ f, Event.write f ∈ t → f = get_position_cmd := by
  intro fuel
  induction fuel with
  | zero =>
      intro n s t h
      simp [poll_loop] at h
  | succ fuel ih =>
      intro n s t h
      rw [poll_loop] at h
      cases hg : get_position_deg env n s with
      | ok s1 n1 t1 =>
          rw [hg] at h
          dsimp only at h
          obtain ⟨hs1, hn1, ht1⟩ := get_position_deg_ok env n s s1 n1 t1 hg
          cases hc : check s1.position_deg with
          | true =>
              rw [if_pos hc] at h
              exact absurd h (by simp)
          | false =>
              rw [if_neg (by simp [hc])] at h
              cases hrec : poll_loop env check fuel n1 s1 with
              | ok s2 n2 t2 =>
                  rw [hrec] at h
                  exact absurd h (by simp)
              | fail t2 =>
                  rw [hrec] at h
                  obtain h3 := Out.fail.inj h
                  subst h3
                  intro f hf
                  rcases List.mem_append.1 hf with hf1 | hf2
                  · rw [ht1] at hf1
                    simp at hf1
                    exact hf1
                  · exact ih n1 s1 t2 hrec f hf2
              | hang =>
                  rw [hrec] at h
                  exact absurd h (by simp)
      | fail t1 =>
          rw [hg] at h
          dsimp only at h
          obtain h3 := Out.fail.inj h
          subst h3
          unfold get_position_deg at hg
          by_cases hl : 12 < (env n).length
          · rw [if_pos hl] at hg
            obtain h4 := Out.fail.inj hg
            intro f hf
            rw [← h4] at hf
            simp at hf
            exact hf
          · rw [if_neg hl] at hg
            exact absurd hg (by simp)
      | hang =>
          rw [hg] at h
          exact absurd h (by simp)

theorem finish_move_fail_writes (env : ℕ → List ℕ) (fuel n : ℕ) (s : CState)
    (t : List Event) (hm : s.moving = true)
    (h : finish_move env fuel n s = Out.fail t) :
    ∀ f, Event.write f ∈ t → f = get_position_cmd := by
  unfold finish_move at h
  rw [hm] at h
  simp only [Bool.true_eq_false, if_false] at h
  cases hp : poll_loop env (move_check s.target_position_deg) fuel (n + 1) s with
  | ok s1 n1 t1 =>
      rw [hp] at h
      exact absurd h (by simp)
  | fail t1 =>
      rw [hp] at h
      obtain h3 := Out.fail.inj h
      subst h3
      intro f hf
      rcases List.mem_cons.1 hf with h1 | h2
      · exact absurd h1 (by simp)
      · exact poll_loop_fail_writes env _ fuel (n + 1) s t1 hp f h2
  | hang =>
      rw [hp] at h
      exact absurd h (by simp)

theorem issue_move_fail (env : ℕ → List ℕ) (fuel n1 : ℕ) (s1 : CState)
    (amount : ℚ) (relative block : Bool) (T : List Event)
    (h : issue_move env fuel n1 s1 amount relative block = Out.fail T) :
    T = [] ∨ ∃ t3, T = Event.write (move_abs_cmd s1.ch_id_bytes
      (pyRound ((if relative then s1.position_deg + amount else amount) *
        EncCnt_per_deg))) :: t3 := by
  simp only [issue_move] at h
  by_cases hr : 0 ≤ (if relative then s1.position_deg + amount else amount) ∧
      (if relative then s1.position_deg + amount else amount) ≤ 359.99
  · rw [if_pos hr] at h
    cases block with
    | true =>
        rw [if_pos rfl] at h
        split at h
        next heq => exact absurd h (by simp)
        next t3 heq => exact Or.inr ⟨t3, (Out.fail.inj h).symm⟩
        next heq => exact absurd h (by simp)
    | false =>
        rw [if_neg (by simp)] at h
        exact absurd h (by simp)
  · rw [if_neg hr] at h
    exact Or.inl (Out.fail.inj h).symm

/-- C1: for every `move_deg` call that finds a prior non-blocking move
outstanding (`_moving` set), either the call writes no move-absolute frame
at all (its only writes are position queries), or its transport trace
splits as the completed settle-poll of the prior move — whose last queried
position is within tolerance of the old target and which clears the moving
flag — followed by the single new move-absolute write: the prior move is
always forced to settle before a new move-absolute command is transmitted,
so no two move-absolute commands are ever in flight. -/
theorem claim1_moves_never_pipelined (env : ℕ → List ℕ) (fuel n : ℕ) (s : CState)
    (amount : ℚ) (relative block : Bool) (hm : s.moving = true) :
    (∀ f, Event.write f ∈ (move_deg env fuel n s amount relative block).trace →
        f = get_position_cmd) ∨
    ∃ s1 n1 t1 rest,
      finish_move env fuel n s = Out.ok s1 n1 t1 ∧
      s1.moving = false ∧
      s.target_position_deg - move_tol_deg ≤ s1.position_deg ∧
      s1.position_deg ≤ s.target_position_deg + move_tol_deg ∧
      (∀ f, Event.write f ∈ t1 → f = get_position_cmd) ∧
      (move_deg env fuel n s amount relative block).trace =
        t1 ++ Event.write (move_abs_cmd s1.ch_id_bytes
          (pyRound ((if relative then s1.position_deg + amount else amount) *
            EncCnt_per_deg))) :: rest := by
  have hmd : move_deg env fuel n s amount relative block =
      Out.andThen (finish_move env fuel n s)
        (fun s1 n1 => issue_move env fuel n1 s1 amount relative block) := by
    unfold move_deg
    rw [hm, if_pos rfl]
  rw [hmd]
  cases hf : finish_move env fuel n s with
  | ok s1 n1 t1 =>
      obtain ⟨c1, c2, c3, c4, c5⟩ := finish_move_ok env fuel n s s1 n1 t1 hm hf
      dsimp only [Out.andThen]
      cases hi : issue_move env fuel n1 s1 amount relative block with
      | ok s2 n2 t2 =>
          dsimp only [Out.trace]
          obtain ⟨t3, ht3⟩ :=
            issue_move_ok_trace env fuel n1 s1 amount relative block s2 n2 t2 hi
          right
          refine ⟨s1, n1, t1, t3, rfl, c3, c1, c2, c5, ?_⟩
          rw [ht3]
      | fail t2 =>
          dsimp only [Out.trace]
          rcases issue_move_fail env fuel n1 s1 amount relative block t2 hi with
            h0 | ⟨t3, ht3⟩
          · left
            intro f hf2
            rw [h0] at hf2
            exact c5 f (by simpa using hf2)
          · right
            refine ⟨s1, n1, t1, t3, rfl, c3, c1, c2, c5, ?_⟩
            rw [ht3]
      | hang =>
          left
          intro f hf2
          simp [Out.trace] at hf2
  | fail t1 =>
      dsimp only [Out.andThen, Out.trace]
      left
      exact fun f hf2 => finish_move_fail_writes env fuel n s t1 hm hf f hf2
  | hang =>
      dsimp only [Out.andThen, Out.trace]
      left
      intro f hf2
      simp at hf2

theorem claim1_witness :
    (∀ f, Event.write f ∈ (move_deg env0 2 0 sW 1 false false).trace →
        f = get_position_cmd) ∨
    ∃ s1 n1 t1 rest,
      finish_move env0 2 0 sW = Out.ok s1 n1 t1 ∧
      s1.moving = false ∧
      sW.target_position_deg - move_tol_deg ≤ s1.position_deg ∧
      s1.position_deg ≤ sW.target_position_deg + move_tol_deg ∧
      (∀ f, Event.write f ∈ t1 → f = get_position_cmd) ∧
      (move_deg env0 2 0 sW 1 false false).trace =
        t1 ++ Event.write (move_abs_cmd s1.ch_id_bytes
          (pyRound ((if false then s1.position_deg + 1 else 1) *
            EncCnt_per_deg))) :: rest :=
  claim1_moves_never_pipelined env0 2 0 sW 1 false false rfl

/-- C3 counterexample: with a prior non-blocking move outstanding and a
rejected target of 400 degrees, `move_deg` raises the range assertion only
after transport I/O (the 20-byte ack read and a position query) has already
happened, so the failure does not occur before any I/O as claimed. -/
theorem claim3_counterexample :
    move_deg env0 1 0 sW 400 false true =
      Out.fail [Event.read 20, Event.write get_position_cmd, Event.read 12] ∧
    [Event.read 20, Event.write get_position_cmd, Event.read 12] ≠ ([] : List Event) := by
  with_unfolding_all decide

/-- C3 (amended): a `move_deg` call whose computed absolute target lies
outside [0, 359.99] fails on the range assertion before any I/O on behalf
of the new move and before any move-absolute frame is sent; when no move is
pending the failure precedes all I/O (empty trace), and when a prior
non-blocking move is pending the only I/O before the failure is the settle
poll of that prior move (position queries only). -/
theorem claim3_range_error :
    (∀ (env : ℕ → List ℕ) (fuel n : ℕ) (s : CState) (amount : ℚ)
        (relative block : Bool),
        s.moving = false →
        ¬(0 ≤ (if relative then s.position_deg + amount else amount) ∧
            (if relative then s.position_deg + amount else amount) ≤ 359.99) →
        move_deg env fuel n s amount relative block = Out.fail []) ∧
    (∀ (env : ℕ → List ℕ) (fuel n : ℕ) (s : CState) (amount : ℚ)
        (relative block : Bool) (s1 : CState) (n1 : ℕ) (t1 : List Event),
        s.moving = true → finish_move env fuel n s = Out.ok s1 n1 t1 →
        ¬(0 ≤ (if relative then s1.position_deg + amount else amount) ∧
            (if relative then s1.position_deg + amount else amount) ≤ 359.99) →
        move_deg env fuel n s amount relative block = Out.fail t1 ∧
        ∀ f, Event.write f ∈ t1 → f = get_position_cmd) := by
  constructor
  · intro env fuel n s amount relative block hm hr
    unfold move_deg
    rw [hm, if_neg (by simp)]
    dsimp only [Out.andThen]
    rw [issue_move_out_of_range env fuel n s amount relative block hr]
    rfl
  · intro env fuel n s amount relative block s1 n1 t1 hm hf hr
    have c5 := (finish_move_ok env fuel n s s1 n1 t1 hm hf).2.2.2.2
    refine ⟨?_, c5⟩
    unfold move_deg
    rw [hm, if_pos rfl, hf]
    dsimp only [Out.andThen]
    rw [issue_move_out_of_range env fuel n1 s1 amount relative block hr]
    simp

theorem claim3_witness :
    move_deg env0 1 0 cstate0 400 false true = Out.fail [] ∧
    (move_deg env0 1 0 sW 360 false true = Out.fail
        [Event.read 20, Event.write get_position_cmd, Event.read 12] ∧
     ∀ f, Event.write f ∈
        [Event.read 20, Event.write get_position_cmd, Event.read 12] →
        f = get_position_cmd) :=
  ⟨claim3_range_error.1 env0 1 0 cstate0 400 false true rfl
      (by with_unfolding_all decide),
   claim3_range_error.2 env0 1 0 sW 360 false true sWdone 2
      [Event.read 20, Event.write get_position_cmd, Event.read 12] rfl
      (by with_unfolding_all decide) (by with_unfolding_all decide)⟩

/-- C4 counterexample: the position-counter response is decoded with
`int.from_bytes(response[8:12], byteorder='little')`, which is unsigned:
on counts bytes `FF FF FF FF` the code stores 4294967295, not the signed
32-bit little-endian value -1 claimed by the spec. -/
theorem claim4_counterexample :
    (apply_position cstate0 respFF).position_counts = 4294967295 ∧
    specSigned32LE ((respFF.drop 8).take 4) = -1 ∧
    ((apply_position cstate0 respFF).position_counts : ℤ) ≠
      specSigned32LE ((respFF.drop 8).take 4) := by
  with_unfolding_all decide

theorem fromBytesLE_take4_facts (l : List ℕ) (hb : ∀ b ∈ l, b < 256) :
    fromBytesLE (l.take 4) < 2 ^ 32 ∧
    (fromBytesLE (l.take 4) : ℤ) % 2 ^ 32 = specSigned32LE (l.take 4) % 2 ^ 32 := by
  constructor
  · have hlen : (l.take 4).length ≤ 4 := by simp
    have hmem : ∀ b ∈ l.take 4, b < 256 := fun b hb2 => hb b (List.mem_of_mem_take hb2)
    calc fromBytesLE (l.take 4)
        < 2 ^ (8 * (l.take 4).length) := fromBytesLE_lt _ hmem
      _ ≤ 2 ^ 32 := Nat.pow_le_pow_right (by norm_num) (by omega)
  · unfold specSigned32LE
    split_ifs with hlt
    · rfl
    · omega

theorem get_velocity_parameters_ok (env : ℕ → List ℕ) (n : ℕ) (s s2 : CState)
    (n2 : ℕ) (t : List Event)
    (h : get_velocity_parameters env n s = Out.ok s2 n2 t) :
    s2.max_velocity =
      (fromBytesLE ((((env n).take 20).drop 16).take 4) : ℚ) / EncCnt_per_deg_per_s ∧
    s2.acceleration =
      (fromBytesLE ((((env n).take 20).drop 12).take 4) : ℚ) / EncCnt_per_deg_per_s2 := by
  unfold get_velocity_parameters at h
  by_cases hl : 20 < (env n).length
  · rw [if_pos hl] at h
    exact absurd h (by simp)
  · rw [if_neg hl] at h
    dsimp only at h
    obtain ⟨h1, h2, h3⟩ := Out.ok.inj h
    subst h1
    exact ⟨rfl, rfl⟩

/-- C4 (amended): response payload fields are decoded as unsigned 32-bit
little-endian integers: the stored position counts are the unsigned decode
of bytes [8:12] of the position response, and the acceleration and max
velocity recorded by the velocity-parameters read are the unsigned decodes
of bytes [12:16] and [16:20] divided by their scales; each decoded value is
below 2^32 and agrees with the spec's signed interpretation only modulo
2^32.  Outgoing count fields, by contrast, are encoded signed: the 4-byte
two's-complement encoding used in the move-absolute and set-velocity frames
round-trips with the signed 32-bit decode on all of [-2^31, 2^31). -/
theorem claim4_decode_unsigned :
    (∀ (s : CState) (resp : List ℕ), (∀ b ∈ resp, b < 256) →
        (apply_position s resp).position_counts = fromBytesLE ((resp.drop 8).take 4) ∧
        (apply_position s resp).position_counts < 2 ^ 32 ∧
        ((apply_position s resp).position_counts : ℤ) % 2 ^ 32 =
          specSigned32LE ((resp.drop 8).take 4) % 2 ^ 32) ∧
    (∀ (env : ℕ → List ℕ) (n : ℕ) (s : CState), (∀ b ∈ env n, b < 256) →
        (get_velocity_parameters env n s).isOk = true →
        ∃ s2 n2 t, get_velocity_parameters env n s = Out.ok s2 n2 t ∧
          s2.acceleration =
            (fromBytesLE ((((env n).take 20).drop 12).take 4) : ℚ) /
              EncCnt_per_deg_per_s2 ∧
          s2.max_velocity =
            (fromBytesLE ((((env n).take 20).drop 16).take 4) : ℚ) /
              EncCnt_per_deg_per_s ∧
          fromBytesLE ((((env n).take 20).drop 12).take 4) < 2 ^ 32 ∧
          fromBytesLE ((((env n).take 20).drop 16).take 4) < 2 ^ 32 ∧
          (fromBytesLE ((((env n).take 20).drop 12).take 4) : ℤ) % 2 ^ 32 =
            specSigned32LE ((((env n).take 20).drop 12).take 4) % 2 ^ 32 ∧
          (fromBytesLE ((((env n).take 20).drop 16).take 4) : ℤ) % 2 ^ 32 =
            specSigned32LE ((((env n).take 20).drop 16).take 4) % 2 ^ 32) ∧
    (∀ m : ℤ, -(2 ^ 31) ≤ m → m < 2 ^ 31 →
        (int32ToBytesLE m).length = 4 ∧ specSigned32LE (int32ToBytesLE m) = m) := by
  refine ⟨?_, ?_, ?_⟩
  · intro s resp hb
    have hf := fromBytesLE_take4_facts (resp.drop 8)
      (fun b hb2 => hb b (List.mem_of_mem_drop hb2))
    exact ⟨rfl, hf.1, hf.2⟩
  · intro env n s hb hok
    obtain ⟨s2, n2, t, heq⟩ := (Out.isOk_iff _).1 hok
    obtain ⟨hmv, hacc⟩ := get_velocity_parameters_ok env n s s2 n2 t heq
    have hb20 : ∀ b ∈ (env n).take 20, b < 256 :=
      fun b hb2 => hb b (List.mem_of_mem_take hb2)
    have h12 := fromBytesLE_take4_facts (((env n).take 20).drop 12)
      (fun b hb2 => hb20 b (List.mem_of_mem_drop hb2))
    have h16 := fromBytesLE_take4_facts (((env n).take 20).drop 16)
      (fun b hb2 => hb20 b (List.mem_of_mem_drop hb2))
    exact ⟨s2, n2, t, heq, hacc, hmv, h12.1, h16.1, h12.2, h16.2⟩
  · intro m h0 h1
    exact ⟨toBytesLE_length 4 _, specSigned32LE_int32ToBytesLE m h0 h1⟩

theorem claim4_witness :
    ((apply_position cstate0 respFF).position_counts =
        fromBytesLE ((respFF.drop 8).take 4) ∧
     (apply_position cstate0 respFF).position_counts < 2 ^ 32 ∧
     ((apply_position cstate0 respFF).position_counts : ℤ) % 2 ^ 32 =
       specSigned32LE ((respFF.drop 8).take 4) % 2 ^ 32) ∧
    (∃ s2 n2 t,
        get_velocity_parameters (fun k => echoResp) 0 cstate0 = Out.ok s2 n2 t ∧
        s2.acceleration =
          (fromBytesLE (((echoResp.take 20).drop 12).take 4) : ℚ) /
            EncCnt_per_deg_per_s2 ∧
        s2.max_velocity =
          (fromBytesLE (((echoResp.take 20).drop 16).take 4) : ℚ) /
            EncCnt_per_deg_per_s ∧
        fromBytesLE (((echoResp.take 20).drop 12).take 4) < 2 ^ 32 ∧
        fromBytesLE (((echoResp.take 20).drop 16).take 4) < 2 ^ 32 ∧
        (fromBytesLE (((echoResp.take 20).drop 12).take 4) : ℤ) % 2 ^ 32 =
          specSigned32LE (((echoResp.take 20).drop 12).take 4) % 2 ^ 32 ∧
        (fromBytesLE (((echoResp.take 20).drop 16).take 4) : ℤ) % 2 ^ 32 =
          specSigned32LE (((echoResp.take 20).drop 16).take 4) % 2 ^ 32) ∧
    ((int32ToBytesLE (-1)).length = 4 ∧ specSigned32LE (int32ToBytesLE (-1)) = -1) :=
  ⟨claim4_decode_unsigned.1 cstate0 respFF (by with_unfolding_all decide),
   claim4_decode_unsigned.2.1 (fun k => echoResp) 0 cstate0
      (by with_unfolding_all decide) (by with_unfolding_all decide),
   claim4_decode_unsigned.2.2 (-1) (by norm_num) (by norm_num)⟩

/-- C5: for every degree value d in [0, 359.99], converting to encoder
counts with `round(d * EncCnt_per_deg)` and back with
`counts / EncCnt_per_deg` recovers a value within 0.01 degree of d. -/
theorem claim5_roundtrip (d : ℚ) (h0 : 0 ≤ d) (h1 : d ≤ 359.99) :
    |(pyRound (d * EncCnt_per_deg) : ℚ) / EncCnt_per_deg - d| ≤ move_tol_deg := by
  have hs : (0 : ℚ) < EncCnt_per_deg := by norm_num [EncCnt_per_deg]
  have key := pyRound_sub_abs_le (d * EncCnt_per_deg)
  have heq : (pyRound (d * EncCnt_per_deg) : ℚ) / EncCnt_per_deg - d
      = ((pyRound (d * EncCnt_per_deg) : ℚ) - d * EncCnt_per_deg) / EncCnt_per_deg := by
    field_simp
    ring
  rw [heq, abs_div, abs_of_pos hs, div_le_iff₀ hs]
  have hb : (1 : ℚ) / 2 ≤ move_tol_deg * EncCnt_per_deg := by
    norm_num [move_tol_deg, EncCnt_per_deg]
  linarith

theorem claim5_witness :
    |(pyRound (100 * EncCnt_per_deg) : ℚ) / EncCnt_per_deg - 100| ≤ move_tol_deg :=
  claim5_roundtrip 100 (by norm_num) (by norm_num)

/-- C8: layout of the transmitted move-absolute frame: 12 bytes total, a
6-byte header `53 04 06 00 D0 01` whose fifth byte is the bus address 0x50
with the payload bit 0x80 set (0xD0) and whose payload-length field decodes
to 6, followed by the 2-byte channel handle and the target counts as a
signed 32-bit little-endian integer. -/
theorem claim8_move_abs_frame (ch : List ℕ) (counts : ℤ) (hch : ch.length = 2)
    (hlo : -(2 ^ 31) ≤ counts) (hhi : counts < 2 ^ 31) :
    (move_abs_cmd ch counts).length = 12 ∧
    (move_abs_cmd ch counts).take 6 = [0x53, 0x04, 0x06, 0x00, 0xD0, 0x01] ∧
    destination_byte = Nat.lor 0x50 0x80 ∧ destination_byte = 0xD0 ∧
    fromBytesLE (((move_abs_cmd ch counts).drop 2).take 2) = 6 ∧
    (move_abs_cmd ch counts).drop 6 = ch ++ int32ToBytesLE counts ∧
    (int32ToBytesLE counts).length = 4 ∧
    specSigned32LE (int32ToBytesLE counts) = counts := by
  obtain ⟨a, b, rfl⟩ := List.length_eq_two.1 hch
  have hlen4 : (int32ToBytesLE counts).length = 4 := toBytesLE_length 4 _
  refine ⟨?_, rfl, rfl, rfl, rfl, rfl, hlen4,
    specSigned32LE_int32ToBytesLE counts hlo hhi⟩
  simp [move_abs_cmd, hlen4]

theorem claim8_witness :
    (move_abs_cmd [1, 0] (-5)).length = 12 ∧
    (move_abs_cmd [1, 0] (-5)).take 6 = [0x53, 0x04, 0x06, 0x00, 0xD0, 0x01] ∧
    destination_byte = Nat.lor 0x50 0x80 ∧ destination_byte = 0xD0 ∧
    fromBytesLE (((move_abs_cmd [1, 0] (-5)).drop 2).take 2) = 6 ∧
    (move_abs_cmd [1, 0] (-5)).drop 6 = [1, 0] ++ int32ToBytesLE (-5) ∧
    (int32ToBytesLE (-5)).length = 4 ∧
    specSigned32LE (int32ToBytesLE (-5)) = -5 :=
  claim8_move_abs_frame [1, 0] (-5) rfl (by norm_num) (by norm_num)

/-- C10: the `_send` primitive verifies after every exchange that the input
buffer is empty: on success the whole buffer was consumed by the requested
read (and when the device supplied exactly the requested count, exactly
that many bytes are consumed); any trailing bytes beyond the requested
count, or any bytes present when no read was requested, make the
`inWaiting` assertion fail. -/
theorem claim10_send_buffer_empty :
    (∀ (cmd : List ℕ) (k : ℕ) (buffer r : List ℕ) (t : List Event),
        send cmd (some k) buffer = some (some r, t) →
        r = buffer ∧ buffer.length ≤ k) ∧
    (∀ (cmd : List ℕ) (k : ℕ) (buffer : List ℕ),
        buffer.length = k →
        send cmd (some k) buffer =
          some (some buffer, [Event.write cmd, Event.read k])) ∧
    (∀ (cmd : List ℕ) (k : ℕ) (buffer : List ℕ),
        k < buffer.length → send cmd (some k) buffer = none) ∧
    (∀ (cmd buffer : List ℕ), buffer ≠ [] → send cmd none buffer = none) := by
  refine ⟨?_, ?_, ?_, ?_⟩
  · intro cmd k buffer r t h
    dsimp only [send] at h
    by_cases hd : buffer.drop k = []
    · rw [if_pos hd] at h
      have hlen : buffer.length ≤ k := by
        have := congrArg List.length hd
        simp at this
        omega
      have htake : buffer.take k = buffer := List.take_of_length_le hlen
      simp only [Option.some.injEq, Prod.mk.injEq] at h
      refine ⟨?_, hlen⟩
      rw [← h.1, htake]
    · rw [if_neg hd] at h
      exact absurd h (by simp)
  · intro cmd k buffer hlen
    dsimp only [send]
    rw [if_pos (List.drop_eq_nil_of_le hlen.le), List.take_of_length_le hlen.le]
  · intro cmd k buffer hlt
    dsimp only [send]
    rw [if_neg (by
      intro hcontra
      have hcl := congrArg List.length hcontra
      simp at hcl
      omega)]
  · intro cmd buffer hne
    dsimp only [send]
    rw [if_neg hne]

theorem claim10_witness :
    (([7] : List ℕ) = [7] ∧ ([7] : List ℕ).length ≤ 6) ∧
    send [5] (some 2) [9, 9] = some (some [9, 9], [Event.write [5], Event.read 2]) ∧
    send [5] (some 1) [9, 9] = none ∧
    send [5] none [9] = none :=
  ⟨claim10_send_buffer_empty.1 [80] 6 [7] [7] [Event.write [80], Event.read 6]
      (by decide),
   claim10_send_buffer_empty.2.1 [5] 2 [9, 9] rfl,
   claim10_send_buffer_empty.2.2.1 [5] 1 [9, 9] (by decide),
   claim10_send_buffer_empty.2.2.2 [5] [9] (by decide)⟩

theorem set_velocity_out_of_range (env : ℕ → List ℕ) (n : ℕ) (s : CState)
    (mv acc : ℚ) (hr : ¬((0 ≤ mv ∧ mv ≤ 25) ∧ (0 ≤ acc ∧ acc ≤ 25))) :
    set_velocity_parameters env n s mv acc = Out.fail [] := by
  simp only [set_velocity_parameters]
  rw [if_neg hr]

theorem set_velocity_ok_verified (env : ℕ → List ℕ) (n : ℕ) (s : CState)
    (mv acc : ℚ) (s2 : CState) (n2 : ℕ) (t : List Event)
    (h : set_velocity_parameters env n s mv acc = Out.ok s2 n2 t) :
    round_py1 s2.max_velocity = mv ∧ round_py1 s2.acceleration = acc := by
  simp only [set_velocity_parameters] at h
  by_cases hr : (0 ≤ mv ∧ mv ≤ 25) ∧ (0 ≤ acc ∧ acc ≤ 25)
  · rw [if_pos hr] at h
    cases hg : get_velocity_parameters env n s with
    | ok s1 n1 t1 =>
        rw [hg] at h
        dsimp only at h
        by_cases hv : round_py1 s1.max_velocity = mv ∧ round_py1 s1.acceleration = acc
        · rw [if_pos hv] at h
          obtain ⟨h1, h2, h3⟩ := Out.ok.inj h
          subst h1
          exact hv
        · rw [if_neg hv] at h
          exact absurd h (by simp)
    | fail t1 =>
        rw [hg] at h
        exact absurd h (by simp)
    | hang =>
        rw [hg] at h
        exact absurd h (by simp)
  · rw [if_neg hr] at h
    exact absurd h (by simp)

/-- C7: `_set_velocity_parameters` rejects max velocity or acceleration
outside [0, 25] before any frame is sent (empty trace); whenever the
operation succeeds, the values re-read by the verification get equal the
requested values to one decimal place (a mismatch is a fatal assertion, so
it cannot succeed); and against a device that echoes the transmitted
counts, setting (25, 25) reads back as (25.0, 25.0) to one decimal
place. -/
theorem claim7_velocity_profile :
    (∀ (env : ℕ → List ℕ) (n : ℕ) (s : CState) (mv acc : ℚ),
        ¬((0 ≤ mv ∧ mv ≤ 25) ∧ (0 ≤ acc ∧ acc ≤ 25)) →
        set_velocity_parameters env n s mv acc = Out.fail []) ∧
    (∀ (env : ℕ → List ℕ) (n : ℕ) (s : CState) (mv acc : ℚ),
        (set_velocity_parameters env n s mv acc).isOk = true →
        ∃ s2 n2 t, set_velocity_parameters env n s mv acc = Out.ok s2 n2 t ∧
          round_py1 s2.max_velocity = mv ∧ round_py1 s2.acceleration = acc) ∧
    (∃ s2 n2 t,
        set_velocity_parameters (fun k => echoResp) 0 cstate0 25 25 =
          Out.ok s2 n2 t ∧
        round_py1 s2.max_velocity = 25 ∧ round_py1 s2.acceleration = 25) := by
  have hb : ∀ (env : ℕ → List ℕ) (n : ℕ) (s : CState) (mv acc : ℚ),
      (set_velocity_parameters env n s mv acc).isOk = true →
      ∃ s2 n2 t, set_velocity_parameters env n s mv acc = Out.ok s2 n2 t ∧
        round_py1 s2.max_velocity = mv ∧ round_py1 s2.acceleration = acc := by
    intro env n s mv acc hok
    obtain ⟨s2, n2, t, heq⟩ := (Out.isOk_iff _).1 hok
    obtain ⟨h1, h2⟩ := set_velocity_ok_verified env n s mv acc s2 n2 t heq
    exact ⟨s2, n2, t, heq, h1, h2⟩
  exact ⟨fun env n s mv acc hr => set_velocity_out_of_range env n s mv acc hr,
    hb, hb (fun k => echoResp) 0 cstate0 25 25 (by with_unfolding_all decide)⟩

theorem claim7_witness :
    set_velocity_parameters env0 0 cstate0 30 25 = Out.fail [] ∧
    ∃ s2 n2 t,
      set_velocity_parameters (fun k => echoResp) 0 cstate0 25 25 =
        Out.ok s2 n2 t ∧
      round_py1 s2.max_velocity = 25 ∧ round_py1 s2.acceleration = 25 :=
  ⟨claim7_velocity_profile.1 env0 0 cstate0 30 25 (by with_unfolding_all decide),
   claim7_velocity_profile.2.2⟩

theorem get_info_ok (env : ℕ → List ℕ) (n : ℕ) (s s1 : CState) (n1 : ℕ)
    (t1 : List Event) (h : get_info env n s = Out.ok s1 n1 t1) :
    s1.model_number = (((env n).take 90).drop 10).take 8 ∧
    s1.firmware_v = fromBytesLE ((((env n).take 90).drop 20).take 4) ∧
    t1 = [Event.write get_info_cmd, Event.read 90] := by
  unfold get_info at h
  by_cases hl : 90 < (env n).length
  · rw [if_pos hl] at h
    exact absurd h (by simp)
  · rw [if_neg hl] at h
    obtain ⟨h1, h2, h3⟩ := Out.ok.inj h
    subst h1
    exact ⟨rfl, rfl, h3.symm⟩

/-- C6: if the identity response carries a model code different from
`'KDC101\x00\x00'` or a firmware version different from 131592, the connect
sequence fails on the identity assertion and the whole transport trace is
exactly the identity exchange — no enable, home, position, or velocity
command is ever issued. -/
theorem claim6_identity_mismatch (env : ℕ → List ℕ) (fuel : ℕ)
    (h : ¬((((env 0).take 90).drop 10).take 8 = expected_model ∧
        fromBytesLE ((((env 0).take 90).drop 20).take 4) = 131592)) :
    controller_init env fuel =
      Out.fail [Event.write get_info_cmd, Event.read 90] := by
  unfold controller_init
  cases hg : get_info env 0 cstate0 with
  | ok s1 n1 t1 =>
      obtain ⟨m1, m2, m3⟩ := get_info_ok env 0 cstate0 s1 n1 t1 hg
      dsimp only [Out.andThen]
      rw [if_neg (by rw [m1, m2]; exact h), m3]
      simp
  | fail t1 =>
      have ht : t1 = [Event.write get_info_cmd, Event.read 90] := by
        unfold get_info at hg
        by_cases hl : 90 < (env 0).length
        · rw [if_pos hl] at hg
          exact (Out.fail.inj hg).symm
        · rw [if_neg hl] at hg
          exact absurd hg (by simp)
      dsimp only [Out.andThen]
      rw [ht]
  | hang =>
      unfold get_info at hg
      by_cases hl : 90 < (env 0).length
      · rw [if_pos hl] at hg
        exact absurd hg (by simp)
      · rw [if_neg hl] at hg
        exact absurd hg (by simp)

theorem claim6_witness :
    controller_init (fun k => []) 1 =
      Out.fail [Event.write get_info_cmd, Event.read 90] :=
  claim6_identity_mismatch (fun k => []) 1 (by with_unfolding_all decide)

end KPRM1E
